import Mathlib

/-!
Verification of the posting-time scheduler (src/agents/scheduler.py).

Shallow embedding conventions:
- A datetime is an exact rational number of hours since a fixed epoch whose
  day 0 is a Monday; a calendar date is its integer day ordinal; a
  time-of-day is a rational number of hours in [0, 24).  Python's
  float-hour arithmetic (total_seconds() / 3600, timedelta(hours=x)) is
  modelled by exact rational arithmetic.
- date.weekday() (Monday = 0) is the day ordinal modulo 7.
- A schedule row dict {platform, date, time, datetime, ...} is the
  structure Entry; the derived display column day_of_week is not modelled
  (no claim mentions it).
- Python dicts used as maps are assoc lists (posts_per_week) or functions
  String -> Option Rat (last_post_time); dict.get(k, d) is lookup + getD.
- pandas sort_values on the small frames at hand is modelled as a stable
  sort by the datetime key (List.insertionSort); sort_values applied to the
  empty DataFrame (which has no datetime column) raises KeyError, modelled
  as Except.error.
-/

/-- platform.lower(): ASCII lowercasing of the platform key (the table keys
are plain ASCII words). -/
def strLower (s : String) : String := String.mk (s.data.map Char.toLower)

/-- One row of the schedule: the dict appended by create_weekly_schedule
(platform, date, time, datetime). -/
structure Entry where
  platform : String
  date : Int
  time : ℚ
  dt : ℚ
deriving DecidableEq, Repr

/-- Ordering key used by sorted(..., key=lambda x: x['datetime']) and by
df.sort_values('datetime'). -/
def dtLe (a b : Entry) : Prop := a.dt ≤ b.dt

instance : DecidableRel dtLe := fun a b => inferInstanceAs (Decidable (a.dt ≤ b.dt))

instance : IsTotal Entry dtLe := ⟨fun a b => le_total a.dt b.dt⟩

instance : IsTrans Entry dtLe := ⟨fun _ _ _ h h2 => le_trans h h2⟩

/-- Sort by the datetime field.  For Python's sorted(...) in avoid_conflicts
this is exact (Timsort is stable); as the model of df.sort_values('datetime')
in create_weekly_schedule the stability is an artifact of the model, since
pandas' default quicksort is not stable — so no conclusion about
create_weekly_schedule may rely on the order of equal-datetime rows beyond
sortedness and the multiset of rows. -/
def sortByDt (l : List Entry) : List Entry := List.insertionSort dtLe l

/-- self.optimal_times: the platform-specific candidate time lists set in
SchedulerAgent.__init__ (hours of day). -/
def optimal_times (p : String) : Option (List ℚ) :=
  if p = "instagram" then some [11, 13, 19, 21]
  else if p = "linkedin" then some [8, 10, 12, 17]
  else if p = "twitter" then some [9, 12, 15, 17, 21]
  else if p = "facebook" then some [13, 15, 19]
  else none

/-- times = custom_times or self.optimal_times.get(platform.lower(), [time(12, 0)]).
Python truthiness: both None and the empty list fall through to the table
lookup with default [12:00]. -/
def resolvedTimes (platform : String) (custom_times : Option (List ℚ)) : List ℚ :=
  match custom_times with
  | some ts => if ts = [] then (optimal_times (strLower platform)).getD [12] else ts
  | none => (optimal_times (strLower platform)).getD [12]

/-- The selected time-of-day inside get_optimal_time:
times[date.weekday() % len(times)]. -/
def selectTimeOfDay (platform : String) (dateDay : Int) (custom_times : Option (List ℚ)) : ℚ :=
  let times := resolvedTimes platform custom_times
  let day_index := (dateDay % 7).toNat
  let time_index := day_index % times.length
  times.getD time_index 0

/-- get_optimal_time: datetime.combine(date.date(), selected_time, tzinfo),
as hours since the epoch. -/
def get_optimal_time (platform : String) (dateDay : Int) (custom_times : Option (List ℚ)) : ℚ :=
  24 * (dateDay : ℚ) + selectTimeOfDay platform dateDay custom_times

/-- Lookup in the posts_per_week dict (first binding wins). -/
def lookupPP : List (String × Int) → String → Option Int
  | [], _ => none
  | (k, v) :: rest, p => if k = p then some v else lookupPP rest p

/-- count = posts_per_week.get(platform, 7). -/
def countFor (ppw : List (String × Int)) (p : String) : Int := (lookupPP ppw p).getD 7

/-- The dict appended for one (platform, post_date) pair in
create_weekly_schedule: date, time and datetime all derived from
get_optimal_time. -/
def entryFor (p : String) (post_date : Int) : Entry :=
  let t := selectTimeOfDay p post_date none
  { platform := p, date := post_date, time := t, dt := 24 * (post_date : ℚ) + t }

/-- The inner loop of create_weekly_schedule for one platform:
for i in range(count): day_offset = (i * 7) // count; ... .
range over a non-positive count is empty, hence the Nat count argument
(callers pass Int.toNat of the configured count, matching range()). -/
def platformEntries (p : String) (startDay : Int) (count : Nat) : List Entry :=
  (List.range count).map fun i => entryFor p (startDay + (i * 7 / count : Nat))

/-- The schedule list accumulated by create_weekly_schedule before the
DataFrame conversion and sort. -/
def rawSchedule (platforms : List String) (ppw : List (String × Int)) (startDay : Int) :
    List Entry :=
  platforms.flatMap fun p => platformEntries p startDay (countFor ppw p).toNat

/-- create_weekly_schedule: build all rows, then df.sort_values('datetime').
pd.DataFrame([]) has no datetime column, so sorting the empty schedule
raises KeyError; otherwise the sorted rows are returned. -/
def create_weekly_schedule (platforms : List String) (ppw : List (String × Int))
    (startDay : Int) : Except String (List Entry) :=
  let schedule := rawSchedule platforms ppw startDay
  if schedule.isEmpty then Except.error "KeyError: datetime"
  else Except.ok (sortByDt schedule)

/-- The datetime written for one post inside avoid_conflicts: when the
platform has a recorded last time and the gap to it is below min_gap_hours,
add (min_gap_hours - time_diff + 0.5) hours; otherwise keep it. -/
def adjustedDt (min_gap_hours : ℚ) (lastMap : String → Option ℚ) (post : Entry) : ℚ :=
  match lastMap post.platform with
  | some lt =>
    let time_diff := post.dt - lt
    if time_diff < min_gap_hours then post.dt + (min_gap_hours - time_diff + 1/2)
    else post.dt
  | none => post.dt

/-- The loop of avoid_conflicts: last_post_time as a map from platform to
datetime, threaded through the sorted posts; only the datetime key of each
post is (possibly) rewritten. -/
def avoidLoop (min_gap_hours : ℚ) : List Entry → (String → Option ℚ) → List Entry
  | [], _ => []
  | post :: rest, lastMap =>
    let dt := adjustedDt min_gap_hours lastMap post
    { post with dt := dt } ::
      avoidLoop min_gap_hours rest (fun q => if q = post.platform then some dt else lastMap q)

/-- avoid_conflicts: sort by datetime, then run the adjustment loop with an
initially empty last_post_time dict. -/
def avoid_conflicts (scheduled_posts : List Entry) (min_gap_hours : ℚ) : List Entry :=
  avoidLoop min_gap_hours (sortByDt scheduled_posts) (fun _ => none)

/-- The per-platform gap invariant threaded by avoid_conflicts: the emitted
datetimes of one platform follow each other by at least min_gap_hours,
anchored at the platform's recorded last time when one exists. -/
def gapChain (g : ℚ) : Option ℚ → List ℚ → Prop
  | none, l => List.Chain' (fun x y => x + g ≤ y) l
  | some lt, l => List.Chain (fun x y => x + g ≤ y) lt l

/-- Rewriting one key's value in the posts_per_week dict. -/
def updatePP : List (String × Int) → String → Int → List (String × Int)
  | [], _, _ => []
  | (k, v) :: rest, p, c => if k = p then (k, c) :: rest else (k, v) :: updatePP rest p c

example : avoid_conflicts
    [⟨"instagram", 0, 9, 9⟩, ⟨"instagram", 0, 10, 10⟩] 2
    = [⟨"instagram", 0, 9, 9⟩, ⟨"instagram", 0, 10, 23/2⟩] := by
  norm_num [avoid_conflicts, sortByDt, avoidLoop, adjustedDt, dtLe]

example : create_weekly_schedule ["pb", "pa"] [("pb", 1), ("pa", 1)] 0
    = Except.ok [entryFor "pb" 0, entryFor "pa" 0] := by
  norm_num [create_weekly_schedule, rawSchedule, platformEntries, countFor, lookupPP,
    sortByDt, entryFor, selectTimeOfDay, resolvedTimes, dtLe,
    show optimal_times (strLower "pb") = none from rfl,
    show optimal_times (strLower "pa") = none from rfl, List.range_succ]

example : get_optimal_time "Instagram" 0 none = 11 := by
  norm_num [get_optimal_time, selectTimeOfDay, resolvedTimes, optimal_times,
    show strLower "Instagram" = "instagram" from rfl]

example : create_weekly_schedule [] [] 0 = Except.error "KeyError: datetime" := by rfl

/-- Writing the datetime field back unchanged is the identity on a row. -/
theorem entry_eta (e : Entry) : ({ e with dt := e.dt } : Entry) = e := rfl

/-- No recorded last time for the post's platform: datetime kept. -/
theorem adjustedDt_of_none (g : ℚ) (lastMap : String → Option ℚ) (post : Entry)
    (h : lastMap post.platform = none) : adjustedDt g lastMap post = post.dt := by
  simp [adjustedDt, h]

/-- Gap at least min_gap_hours: datetime kept. -/
theorem adjustedDt_of_ge (g : ℚ) (lastMap : String → Option ℚ) (post : Entry) (lt : ℚ)
    (h : lastMap post.platform = some lt) (hge : g ≤ post.dt - lt) :
    adjustedDt g lastMap post = post.dt := by
  simp [adjustedDt, h, if_neg (not_lt.mpr hge)]

/-- Gap below min_gap_hours: datetime shifted by the gap deficit plus half
an hour. -/
theorem adjustedDt_of_lt (g : ℚ) (lastMap : String → Option ℚ) (post : Entry) (lt : ℚ)
    (h : lastMap post.platform = some lt) (hlt : post.dt - lt < g) :
    adjustedDt g lastMap post = post.dt + (g - (post.dt - lt) + 1/2) := by
  simp [adjustedDt, h, if_pos hlt]

/-- The written datetime never precedes the scheduled one. -/
theorem le_adjustedDt (g : ℚ) (lastMap : String → Option ℚ) (post : Entry) :
    post.dt ≤ adjustedDt g lastMap post := by
  cases h : lastMap post.platform with
  | none => rw [adjustedDt_of_none g lastMap post h]
  | some lt =>
    by_cases hd : post.dt - lt < g
    · rw [adjustedDt_of_lt g lastMap post lt h hd]
      exact le_add_of_nonneg_right (by linarith)
    · rw [adjustedDt_of_ge g lastMap post lt h (not_lt.mp hd)]

/-- The written datetime restores at least the configured gap to the
platform's recorded last time. -/
theorem gap_le_adjustedDt (g : ℚ) (lastMap : String → Option ℚ) (post : Entry) (lt : ℚ)
    (h : lastMap post.platform = some lt) : lt + g ≤ adjustedDt g lastMap post := by
  by_cases hd : post.dt - lt < g
  · rw [adjustedDt_of_lt g lastMap post lt h hd]
    linarith
  · rw [adjustedDt_of_ge g lastMap post lt h (not_lt.mp hd)]
    have := not_lt.mp hd
    linarith

/-- Every step of the conflict loop preserves platform, date and time and can
only move datetime forward. -/
theorem avoidLoop_forall₂ (g : ℚ) :
    ∀ (l : List Entry) (lastMap : String → Option ℚ),
      List.Forall₂
        (fun a b => b.platform = a.platform ∧ b.date = a.date ∧ b.time = a.time ∧ a.dt ≤ b.dt)
        l (avoidLoop g l lastMap) := by
  intro l
  induction l with
  | nil => intro lastMap; exact List.Forall₂.nil
  | cons post rest ih =>
    intro lastMap
    simp only [avoidLoop]
    exact List.Forall₂.cons ⟨rfl, rfl, rfl, le_adjustedDt g lastMap post⟩ (ih _)

/-- C1: an entry whose platform has a recorded last time is emitted unchanged
when its gap to that last time is at least min_gap_hours, and otherwise its
datetime is increased by exactly (min_gap_hours - gap + 0.5) hours; in
particular two instagram entries at T and T + 1 hour with min_gap_hours = 2
leave the second at exactly T + 2.5 hours. -/
theorem conflict_shift_formula (g : ℚ) (_hg : 0 < g) (post : Entry) (rest : List Entry)
    (lastMap : String → Option ℚ) (lt : ℚ) (hlt : lastMap post.platform = some lt) :
    (g ≤ post.dt - lt →
      ((avoidLoop g (post :: rest) lastMap).head?.map Entry.dt) = some post.dt)
    ∧ (post.dt - lt < g →
      ((avoidLoop g (post :: rest) lastMap).head?.map Entry.dt)
        = some (post.dt + (g - (post.dt - lt) + 1/2)))
    ∧ (∀ T : ℚ,
      (avoid_conflicts [⟨"instagram", 0, 0, T⟩, ⟨"instagram", 0, 0, T + 1⟩] 2).map Entry.dt
        = [T, T + 5/2]) := by
  refine ⟨?_, ?_, ?_⟩
  · intro h
    simp [avoidLoop, adjustedDt_of_ge g lastMap post lt hlt h]
  · intro h
    simp [avoidLoop, adjustedDt_of_lt g lastMap post lt hlt h]
  · intro T
    have hsort : sortByDt [⟨"instagram", 0, 0, T⟩, ⟨"instagram", 0, 0, T + 1⟩]
        = [⟨"instagram", 0, 0, T⟩, ⟨"instagram", 0, 0, T + 1⟩] := by
      simp only [sortByDt, List.insertionSort, List.orderedInsert]
      rw [if_pos (show dtLe ⟨"instagram", 0, 0, T⟩ ⟨"instagram", 0, 0, T + 1⟩ by
        simp only [dtLe]; linarith)]
    simp only [avoid_conflicts, hsort, avoidLoop, adjustedDt]
    norm_num
    ring

/-- Witness for conflict_shift_formula at a concrete input. -/
theorem conflict_shift_formula_witness :
    (avoid_conflicts [⟨"instagram", 0, 0, (0:ℚ)⟩, ⟨"instagram", 0, 0, (0:ℚ) + 1⟩] 2).map Entry.dt
      = [0, 0 + 5/2] :=
  (conflict_shift_formula 2 (by norm_num) ⟨"x", 0, 0, 0⟩ [] (fun _ => some 0) 0 rfl).2.2 0

/-- C3: conflict resolution never moves an entry earlier; the processed list
is a permutation of the input and each entry's datetime only grows. -/
theorem resolve_conflicts_monotone (posts : List Entry) (g : ℚ) (_hg : 0 < g) :
    (sortByDt posts).Perm posts ∧
      List.Forall₂ (fun a b => a.dt ≤ b.dt) (sortByDt posts) (avoid_conflicts posts g) :=
  ⟨List.perm_insertionSort dtLe posts,
    List.Forall₂.imp (fun _ _ h => h.2.2.2) (avoidLoop_forall₂ g (sortByDt posts) fun _ => none)⟩

/-- Witness for resolve_conflicts_monotone at a concrete input. -/
theorem resolve_conflicts_monotone_witness :
    (sortByDt [⟨"instagram", 0, 9, (9:ℚ)⟩]).Perm [⟨"instagram", 0, 9, (9:ℚ)⟩] ∧
      List.Forall₂ (fun a b => a.dt ≤ b.dt) (sortByDt [⟨"instagram", 0, 9, (9:ℚ)⟩])
        (avoid_conflicts [⟨"instagram", 0, 9, (9:ℚ)⟩] 2) :=
  resolve_conflicts_monotone [⟨"instagram", 0, 9, 9⟩] 2 (by norm_num)

/-- C5 counterexample: after a conflict shift the date and time fields are
not re-derived, so an output entry violates datetime = combine(date, time). -/
theorem datetime_recombine_cex :
    ¬ (∀ e ∈ avoid_conflicts [⟨"instagram", 0, 9, 9⟩, ⟨"instagram", 0, 10, 10⟩] 2,
        e.dt = 24 * (e.date : ℚ) + e.time) := by
  intro hAll
  have hmem : (⟨"instagram", 0, 10, 23/2⟩ : Entry)
      ∈ avoid_conflicts [⟨"instagram", 0, 9, 9⟩, ⟨"instagram", 0, 10, 10⟩] 2 := by
    norm_num [avoid_conflicts, sortByDt, avoidLoop, adjustedDt, dtLe]
  have hc := hAll _ hmem
  norm_num at hc

/-- C5 amended: a conflict shift rewrites only the datetime field; the date
and time fields of every emitted entry are exactly those of the input
entry, with no re-derivation from the shifted datetime. -/
theorem conflict_shift_keeps_fields (posts : List Entry) (g : ℚ) (_hg : 0 < g) :
    List.Forall₂ (fun a b => b.platform = a.platform ∧ b.date = a.date ∧ b.time = a.time)
      (sortByDt posts) (avoid_conflicts posts g) :=
  List.Forall₂.imp (fun _ _ h => ⟨h.1, h.2.1, h.2.2.1⟩)
    (avoidLoop_forall₂ g (sortByDt posts) fun _ => none)

/-- Witness for conflict_shift_keeps_fields at a concrete input. -/
theorem conflict_shift_keeps_fields_witness :
    List.Forall₂ (fun a b => b.platform = a.platform ∧ b.date = a.date ∧ b.time = a.time)
      (sortByDt [⟨"instagram", 0, 9, (9:ℚ)⟩, ⟨"instagram", 0, 10, (10:ℚ)⟩])
      (avoid_conflicts [⟨"instagram", 0, 9, (9:ℚ)⟩, ⟨"instagram", 0, 10, (10:ℚ)⟩] 2) :=
  conflict_shift_keeps_fields [⟨"instagram", 0, 9, 9⟩, ⟨"instagram", 0, 10, 10⟩] 2 (by norm_num)

/-- The conflict loop establishes the per-platform gap invariant. -/
theorem avoidLoop_gapChain (g : ℚ) (p : String) :
    ∀ (l : List Entry) (lastMap : String → Option ℚ),
      gapChain g (lastMap p)
        (((avoidLoop g l lastMap).filter (fun e => e.platform = p)).map Entry.dt) := by
  intro l
  induction l with
  | nil =>
    intro lastMap
    cases h : lastMap p <;> simp [gapChain, avoidLoop, List.Chain.nil]
  | cons post rest ih =>
    intro lastMap
    simp only [avoidLoop]
    have ihx := ih fun q =>
      if q = post.platform then some (adjustedDt g lastMap post) else lastMap q
    by_cases hp : post.platform = p
    · subst hp
      rw [if_pos (rfl : post.platform = post.platform)] at ihx
      simp only [gapChain] at ihx
      simp only [List.filter_cons]
      rw [if_pos (by simp)]
      simp only [List.map_cons]
      cases h : lastMap post.platform with
      | none => exact ihx
      | some lt => exact List.Chain.cons (gap_le_adjustedDt g lastMap post lt h) ihx
    · rw [if_neg (fun h => hp (Eq.symm h))] at ihx
      have hdrop : ({ post with dt := adjustedDt g lastMap post } : Entry).platform ≠ p := hp
      simpa [List.filter_cons, hdrop] using ihx

/-- C2: in the output of avoid_conflicts every pair of consecutive entries of
one platform is at least min_gap_hours apart (shifted entries becoming the
new baseline), and two entries at the same datetime on different platforms
are both emitted unchanged. -/
theorem per_platform_gap (posts : List Entry) (g : ℚ) (_hg : 0 < g) :
    (∀ p : String, List.Chain' (fun a b => a.dt + g ≤ b.dt)
        ((avoid_conflicts posts g).filter (fun e => e.platform = p)))
    ∧ (∀ e1 e2 : Entry, e1.platform ≠ e2.platform → e1.dt = e2.dt →
        avoid_conflicts [e1, e2] g = [e1, e2]) := by
  constructor
  · intro p
    have h := avoidLoop_gapChain g p (sortByDt posts) (fun _ => none)
    simp only [gapChain] at h
    rw [avoid_conflicts]
    exact (List.chain'_map Entry.dt).mp h
  · intro e1 e2 hne hdt
    have hsort : sortByDt [e1, e2] = [e1, e2] := by
      simp only [sortByDt, List.insertionSort, List.orderedInsert]
      rw [if_pos (show dtLe e1 e2 by simp only [dtLe]; exact le_of_eq hdt)]
    simp only [avoid_conflicts, hsort, avoidLoop]
    rw [adjustedDt_of_none g (fun _ => none) e1 rfl]
    rw [adjustedDt_of_none g (fun q => if q = e1.platform then some e1.dt else none) e2
      (if_neg fun h => hne (Eq.symm h))]

/-- Witness for per_platform_gap at a concrete input. -/
theorem per_platform_gap_witness :
    (0:ℚ) < 2 ∧ List.Chain' (fun a b => a.dt + 2 ≤ b.dt)
      ((avoid_conflicts [⟨"instagram", 0, 9, (9:ℚ)⟩, ⟨"instagram", 0, 10, (10:ℚ)⟩] 2).filter
        (fun e => e.platform = "instagram")) :=
  ⟨by norm_num,
    (per_platform_gap [⟨"instagram", 0, 9, 9⟩, ⟨"instagram", 0, 10, 10⟩] 2 (by norm_num)).1
      "instagram"⟩

/-- With a non-positive gap no entry is ever rewritten: the loop is the
identity on a sorted list whose recorded last times all precede it. -/
theorem avoidLoop_id_of_nonpos (g : ℚ) (hg : g ≤ 0) :
    ∀ (l : List Entry) (lastMap : String → Option ℚ),
      List.Sorted dtLe l →
      (∀ q lt, lastMap q = some lt → ∀ e ∈ l, lt ≤ e.dt) →
      avoidLoop g l lastMap = l := by
  intro l
  induction l with
  | nil => intro lastMap _ _; rfl
  | cons post rest ih =>
    intro lastMap hs hinv
    have hadj : adjustedDt g lastMap post = post.dt := by
      cases h : lastMap post.platform with
      | none => exact adjustedDt_of_none g lastMap post h
      | some lt =>
        have h0 : lt ≤ post.dt := hinv _ _ h post (List.mem_cons_self post rest)
        exact adjustedDt_of_ge g lastMap post lt h (by linarith)
    have hrest : avoidLoop g rest
        (fun q => if q = post.platform then some post.dt else lastMap q) = rest := by
      apply ih _ hs.of_cons
      intro q lt hq e he
      by_cases hqp : q = post.platform
      · rw [if_pos hqp] at hq
        have hlt := Option.some.inj hq
        subst hlt
        exact List.rel_of_sorted_cons hs e he
      · rw [if_neg hqp] at hq
        exact hinv q lt hq e (List.mem_cons_of_mem post he)
    simp only [avoidLoop, hadj, entry_eta, hrest]

/-- C9 counterexample: an explicitly empty override list does not raise any
error (it falls back to the table lookup and returns the instagram slot),
and avoid_conflicts with min_gap_hours = 0 returns normally as well. -/
theorem invalid_configuration_unraised_cex :
    get_optimal_time "instagram" 0 (some []) = get_optimal_time "instagram" 0 none
    ∧ get_optimal_time "instagram" 0 (some []) = 11
    ∧ avoid_conflicts [⟨"instagram", 0, 11, 11⟩] 0 = [⟨"instagram", 0, 11, 11⟩] := by
  refine ⟨?_, ?_, ?_⟩
  · norm_num [get_optimal_time, selectTimeOfDay, resolvedTimes]
  · norm_num [get_optimal_time, selectTimeOfDay, resolvedTimes,
      show optimal_times (strLower "instagram") = some [11, 13, 19, 21] from rfl]
  · norm_num [avoid_conflicts, sortByDt, avoidLoop, adjustedDt]

/-- C9 amended: no configuration validation exists: an explicitly empty
override list is silently replaced by the table lookup (the empty list is
falsy in the or-expression), and a non-positive min_gap_hours is accepted
without error, in which case no entry is ever shifted. -/
theorem no_configuration_validation :
    (∀ (p : String) (d : Int), get_optimal_time p d (some []) = get_optimal_time p d none)
    ∧ (∀ (posts : List Entry) (g : ℚ), g ≤ 0 → avoid_conflicts posts g = sortByDt posts) := by
  constructor
  · intro p d
    simp [get_optimal_time, selectTimeOfDay, resolvedTimes]
  · intro posts g hg
    rw [avoid_conflicts]
    exact avoidLoop_id_of_nonpos g hg (sortByDt posts) (fun _ => none)
      (List.sorted_insertionSort dtLe posts) (fun q lt hq => Option.noConfusion hq)

/-- Witness for no_configuration_validation at a concrete input. -/
theorem no_configuration_validation_witness :
    ((0:ℚ) ≤ 0) ∧ avoid_conflicts [⟨"instagram", 0, 11, (11:ℚ)⟩] 0
      = sortByDt [⟨"instagram", 0, 11, (11:ℚ)⟩] :=
  ⟨le_refl 0, no_configuration_validation.2 [⟨"instagram", 0, 11, 11⟩] 0 (le_refl 0)⟩

/-- C4: time selection lowercases the platform before the table lookup,
falls back to [12:00] for unknown platforms, uses a non-empty override list
verbatim, and indexes the resolved list by weekday mod length; for the
4-slot instagram list, Monday and Friday select 11:00 and Saturday 13:00. -/
theorem weekday_time_selection :
    (∀ (d : Int) (c : Option (List ℚ)),
      get_optimal_time "Instagram" d c = get_optimal_time "instagram" d c)
    ∧ (∀ (p : String) (d : Int), optimal_times (strLower p) = none →
      get_optimal_time p d none = 24 * (d : ℚ) + 12)
    ∧ (∀ (p : String) (d : Int) (ts : List ℚ), ts ≠ [] →
      get_optimal_time p d (some ts) = 24 * (d : ℚ) + ts.getD ((d % 7).toNat % ts.length) 0)
    ∧ (∀ (p : String) (d : Int) (ts : List ℚ), optimal_times (strLower p) = some ts →
      get_optimal_time p d none = 24 * (d : ℚ) + ts.getD ((d % 7).toNat % ts.length) 0)
    ∧ (∀ d : Int, d % 7 = 0 → selectTimeOfDay "instagram" d none = 11)
    ∧ (∀ d : Int, d % 7 = 4 → selectTimeOfDay "instagram" d none = 11)
    ∧ (∀ d : Int, d % 7 = 5 → selectTimeOfDay "instagram" d none = 13) := by
  have hinst : optimal_times (strLower "instagram") = some [11, 13, 19, 21] := rfl
  refine ⟨?_, ?_, ?_, ?_, ?_, ?_, ?_⟩
  · intro d c
    cases c with
    | none =>
      simp [get_optimal_time, selectTimeOfDay, resolvedTimes,
        show strLower "Instagram" = "instagram" from rfl,
        show strLower "instagram" = "instagram" from rfl]
    | some ts =>
      by_cases h : ts = []
      · subst h
        simp [get_optimal_time, selectTimeOfDay, resolvedTimes,
          show strLower "Instagram" = "instagram" from rfl,
          show strLower "instagram" = "instagram" from rfl]
      · simp [get_optimal_time, selectTimeOfDay, resolvedTimes, h]
  · intro p d h
    simp [get_optimal_time, selectTimeOfDay, resolvedTimes, h, Nat.mod_one]
  · intro p d ts h
    simp [get_optimal_time, selectTimeOfDay, resolvedTimes, h]
  · intro p d ts h
    simp [get_optimal_time, selectTimeOfDay, resolvedTimes, h]
  · intro d h
    simp [selectTimeOfDay, resolvedTimes, hinst, h]
  · intro d h
    simp [selectTimeOfDay, resolvedTimes, hinst, h]
  · intro d h
    simp [selectTimeOfDay, resolvedTimes, hinst, h]

/-- Witness for weekday_time_selection at a concrete input. -/
theorem weekday_time_selection_witness :
    optimal_times (strLower "zzz") = none
      ∧ get_optimal_time "zzz" 3 none = 24 * ((3 : Int) : ℚ) + 12 :=
  ⟨rfl, weekday_time_selection.2.1 "zzz" 3 rfl⟩

/-- Each platform whose configured count is non-positive contributes an
empty range, so the accumulated schedule list stays empty. -/
theorem rawSchedule_nil (platforms : List String) (ppw : List (String × Int)) (startDay : Int)
    (h : ∀ p ∈ platforms, countFor ppw p ≤ 0) :
    rawSchedule platforms ppw startDay = [] := by
  induction platforms with
  | nil => rfl
  | cons q rest ih =>
    have hq : (countFor ppw q).toNat = 0 :=
      Int.toNat_of_nonpos (h q (List.mem_cons_self q rest))
    have hr : rawSchedule rest ppw startDay = [] :=
      ih fun p hp => h p (List.mem_cons_of_mem q hp)
    simp only [rawSchedule] at hr ⊢
    rw [List.flatMap_cons, hq, hr]
    rfl

/-- C10: with no platforms, or with every listed platform's configured count
zero or negative, the accumulated schedule is empty and
create_weekly_schedule fails on the missing datetime column instead of
returning an empty schedule. -/
theorem empty_schedule_sort_error (platforms : List String) (ppw : List (String × Int))
    (startDay : Int)
    (h : platforms = [] ∨ ∀ p ∈ platforms, countFor ppw p ≤ 0) :
    create_weekly_schedule platforms ppw startDay = Except.error "KeyError: datetime" := by
  have hnil : rawSchedule platforms ppw startDay = [] := by
    cases h with
    | inl h => rw [h]; rfl
    | inr h => exact rawSchedule_nil platforms ppw startDay h
  simp [create_weekly_schedule, hnil]

/-- Witness for empty_schedule_sort_error at a concrete input. -/
theorem empty_schedule_sort_error_witness :
    create_weekly_schedule ["instagram"] [("instagram", 0)] 5
      = Except.error "KeyError: datetime" :=
  empty_schedule_sort_error ["instagram"] [("instagram", 0)] 5 (Or.inr (by decide))

/-- Lookup after a dict update: the updated key reads the new value when it
was present, every other key is unchanged. -/
theorem lookupPP_updatePP (p : String) (c : Int) :
    ∀ (m : List (String × Int)) (q : String),
      lookupPP (updatePP m p c) q
        = if q = p then (lookupPP m p).map (fun _ => c) else lookupPP m q := by
  intro m
  induction m with
  | nil => intro q; simp [updatePP, lookupPP]
  | cons kv rest ih =>
    obtain ⟨k, v⟩ := kv
    intro q
    by_cases hk : k = p <;> by_cases hq : k = q <;>
      simp_all [updatePP, lookupPP]
    rw [if_neg fun hh => hq (Eq.symm hh)]

/-- C8 counterexample: a negative posts_per_week value does not raise any
error and does not suppress the whole output; the platform with the
negative count simply contributes nothing. -/
theorem negative_count_no_error_cex :
    create_weekly_schedule ["instagram", "bad"] [("instagram", 1), ("bad", -5)] 0
      = Except.ok [entryFor "instagram" 0] := by
  norm_num [create_weekly_schedule, rawSchedule, platformEntries, countFor, lookupPP,
    sortByDt, List.range_succ]

/-- C8 amended: a negative posts_per_week value behaves exactly like an
explicit zero: range(count) is empty for it, no exception is raised
because of it, and the platform contributes zero entries. -/
theorem negative_count_like_zero (platforms : List String) (ppw : List (String × Int))
    (startDay : Int) (p : String) (c : Int)
    (hp : lookupPP ppw p = some c) (hc : c < 0) :
    create_weekly_schedule platforms ppw startDay
        = create_weekly_schedule platforms (updatePP ppw p 0) startDay
      ∧ platformEntries p startDay c.toNat = [] := by
  constructor
  · have hcf : (fun q => platformEntries q startDay (countFor (updatePP ppw p 0) q).toNat)
        = fun q => platformEntries q startDay (countFor ppw q).toNat := by
      funext q
      rw [countFor, countFor, lookupPP_updatePP]
      by_cases hq : q = p
      · rw [if_pos hq, hq, hp]
        simp [Int.toNat_of_nonpos (le_of_lt hc)]
      · rw [if_neg hq]
    simp only [create_weekly_schedule, rawSchedule, hcf]
  · rw [Int.toNat_of_nonpos (le_of_lt hc)]
    rfl

/-- Witness for negative_count_like_zero at a concrete input. -/
theorem negative_count_like_zero_witness :
    (create_weekly_schedule ["instagram", "bad"] [("instagram", 1), ("bad", -5)] 0
        = create_weekly_schedule ["instagram", "bad"]
            (updatePP [("instagram", 1), ("bad", -5)] "bad" 0) 0)
      ∧ platformEntries "bad" 0 (Int.toNat (-5)) = [] :=
  negative_count_like_zero ["instagram", "bad"] [("instagram", 1), ("bad", -5)] 0
    "bad" (-5) (by decide) (by decide)

/-- C7 counterexample: two unknown platforms listed in non-lexicographic
order produce two rows with equal datetimes; the output keeps the insertion
order, so equal-datetime ties are not ordered by platform name. -/
theorem tie_not_lexicographic_cex :
    create_weekly_schedule ["pb", "pa"] [("pb", 1), ("pa", 1)] 0
        = Except.ok [entryFor "pb" 0, entryFor "pa" 0]
      ∧ (entryFor "pb" 0).dt = (entryFor "pa" 0).dt
      ∧ (entryFor "pa" 0).platform < (entryFor "pb" 0).platform := by
  refine ⟨?_, ?_, ?_⟩
  · norm_num [create_weekly_schedule, rawSchedule, platformEntries, countFor, lookupPP,
      sortByDt, entryFor, selectTimeOfDay, resolvedTimes, dtLe,
      show optimal_times (strLower "pb") = none from rfl,
      show optimal_times (strLower "pa") = none from rfl, List.range_succ]
  · norm_num [entryFor, selectTimeOfDay, resolvedTimes,
      show optimal_times (strLower "pb") = none from rfl,
      show optimal_times (strLower "pa") = none from rfl]
  · show ("pa" : String) < "pb"
    rw [String.lt_iff_toList_lt]
    decide

/-- C7 amended: the returned schedule is sorted non-decreasing in datetime
and is a permutation of the built rows; no lexicographic tie-break by
platform name is applied, and the order of equal-datetime rows is not
otherwise specified. -/
theorem schedule_sorted_by_datetime (platforms : List String) (ppw : List (String × Int))
    (startDay : Int) (out : List Entry)
    (h : create_weekly_schedule platforms ppw startDay = Except.ok out) :
    List.Sorted dtLe out ∧ out.Perm (rawSchedule platforms ppw startDay) := by
  simp only [create_weekly_schedule] at h
  split at h
  · exact absurd h (by simp)
  · have hout := Except.ok.inj h
    rw [← hout]
    exact ⟨List.sorted_insertionSort dtLe _, List.perm_insertionSort dtLe _⟩

/-- Witness for schedule_sorted_by_datetime at a concrete input. -/
theorem schedule_sorted_by_datetime_witness :
    List.Sorted dtLe [entryFor "pb" 0, entryFor "pa" 0]
      ∧ ([entryFor "pb" 0, entryFor "pa" 0] : List Entry).Perm
          (rawSchedule ["pb", "pa"] [("pb", 1), ("pa", 1)] 0) :=
  schedule_sorted_by_datetime ["pb", "pa"] [("pb", 1), ("pa", 1)] 0
    [entryFor "pb" 0, entryFor "pa" 0] (by
      norm_num [create_weekly_schedule, rawSchedule, platformEntries, countFor, lookupPP,
        sortByDt, entryFor, selectTimeOfDay, resolvedTimes, dtLe,
        show optimal_times (strLower "pb") = none from rfl,
        show optimal_times (strLower "pa") = none from rfl, List.range_succ])

/-- The datetime field of one built row. -/
theorem entryFor_dt (p : String) (d : Int) :
    (entryFor p d).dt = 24 * (d : ℚ) + selectTimeOfDay p d none := rfl

/-- The date field of one built row. -/
theorem entryFor_date (p : String) (d : Int) : (entryFor p d).date = d := rfl

/-- The time field of one built row. -/
theorem entryFor_time (p : String) (d : Int) :
    (entryFor p d).time = selectTimeOfDay p d none := rfl

/-- The platform field of one built row. -/
theorem entryFor_platform (p : String) (d : Int) : (entryFor p d).platform = p := rfl

/-- Every candidate time in the static table is a valid hour of day. -/
theorem optimal_times_bounds (q : String) (ts : List ℚ) (h : optimal_times q = some ts) :
    ∀ t ∈ ts, 0 ≤ t ∧ t < 24 := by
  simp only [optimal_times] at h
  split_ifs at h
  all_goals first
    | exact Option.noConfusion h
    | (obtain rfl := Option.some.inj h
       intro t ht
       fin_cases ht <;> norm_num)

/-- Every candidate list in the static table is non-empty. -/
theorem optimal_times_ne_nil (q : String) (ts : List ℚ) (h : optimal_times q = some ts) :
    ts ≠ [] := by
  simp only [optimal_times] at h
  split_ifs at h
  all_goals first
    | exact Option.noConfusion h
    | (obtain rfl := Option.some.inj h; simp)

/-- Without an override the resolved candidate list is non-empty. -/
theorem resolvedTimes_none_ne_nil (p : String) : resolvedTimes p none ≠ [] := by
  simp only [resolvedTimes]
  cases h : optimal_times (strLower p) with
  | none => simp
  | some ts => exact optimal_times_ne_nil _ ts h

/-- Without an override every resolved candidate time is a valid hour of
day. -/
theorem resolvedTimes_none_bounds (p : String) :
    ∀ t ∈ resolvedTimes p none, 0 ≤ t ∧ t < 24 := by
  intro t ht
  simp only [resolvedTimes] at ht
  cases h : optimal_times (strLower p) with
  | none =>
    rw [h] at ht
    simp at ht
    rw [ht]
    norm_num
  | some ts =>
    rw [h] at ht
    exact optimal_times_bounds _ ts h t ht

/-- The selected time-of-day is always a valid hour of day. -/
theorem selectTimeOfDay_none_bounds (p : String) (d : Int) :
    0 ≤ selectTimeOfDay p d none ∧ selectTimeOfDay p d none < 24 := by
  have hne := resolvedTimes_none_ne_nil p
  have hpos : 0 < (resolvedTimes p none).length := List.length_pos.mpr hne
  have hidx : (d % 7).toNat % (resolvedTimes p none).length < (resolvedTimes p none).length :=
    Nat.mod_lt _ hpos
  have hsel : selectTimeOfDay p d none
      = (resolvedTimes p none).get ⟨(d % 7).toNat % (resolvedTimes p none).length, hidx⟩ := by
    simp [selectTimeOfDay, List.getElem?_eq_getElem hidx]
  rw [hsel]
  exact resolvedTimes_none_bounds p _ (List.get_mem _ _ _)

/-- Two built rows of one platform with the same datetime are the same row:
the time-of-day part lies in [0, 24), so the datetime determines the date. -/
theorem entryFor_inj_of_dt_eq (p : String) (d1 d2 : Int)
    (h : (entryFor p d1).dt = (entryFor p d2).dt) : entryFor p d1 = entryFor p d2 := by
  have hb1 := selectTimeOfDay_none_bounds p d1
  have hb2 := selectTimeOfDay_none_bounds p d2
  rw [entryFor_dt, entryFor_dt] at h
  have hdd : d1 = d2 := by
    by_contra hne
    rcases lt_or_gt_of_ne hne with hlt | hlt
    · have hcast : (d1 : ℚ) + 1 ≤ (d2 : ℚ) := by exact_mod_cast hlt
      linarith [hb1.1, hb1.2, hb2.1, hb2.2]
    · have hcast : (d2 : ℚ) + 1 ≤ (d1 : ℚ) := by exact_mod_cast hlt
      linarith [hb1.1, hb1.2, hb2.1, hb2.2]
  rw [hdd]

/-- A later date gives a datetime no earlier. -/
theorem entryFor_dt_mono (p : String) (d1 d2 : Int) (h : d1 ≤ d2) :
    (entryFor p d1).dt ≤ (entryFor p d2).dt := by
  rcases eq_or_lt_of_le h with rfl | hlt
  · exact le_refl _
  · have hcast : (d1 : ℚ) + 1 ≤ (d2 : ℚ) := by exact_mod_cast hlt
    have hb1 := selectTimeOfDay_none_bounds p d1
    have hb2 := selectTimeOfDay_none_bounds p d2
    rw [entryFor_dt, entryFor_dt]
    linarith [hb1.2, hb2.1]

/-- The rows built for one platform are sorted by datetime. -/
theorem platformEntries_sorted (p : String) (s : Int) (c : Nat) :
    List.Sorted dtLe (platformEntries p s c) := by
  rw [platformEntries, List.Sorted, List.pairwise_map]
  apply (List.pairwise_lt_range c).imp
  intro i j hij
  show dtLe _ _
  apply entryFor_dt_mono
  have : i * 7 / c ≤ j * 7 / c :=
    Nat.div_le_div_right (Nat.mul_le_mul_right 7 (le_of_lt hij))
  omega

/-- Every row built for one platform carries that platform. -/
theorem platformEntries_platform (p : String) (s : Int) (c : Nat) :
    ∀ e ∈ platformEntries p s c, e.platform = p := by
  intro e he
  simp only [platformEntries, List.mem_map] at he
  obtain ⟨i, _, rfl⟩ := he
  rfl

/-- Rows of one platform built for distinct loop indices with equal
datetimes are identical rows. -/
theorem platformEntries_dt_inj (p : String) (s : Int) (c : Nat) :
    ∀ a ∈ platformEntries p s c, ∀ b ∈ platformEntries p s c, a.dt = b.dt → a = b := by
  intro a ha b hb h
  simp only [platformEntries, List.mem_map] at ha hb
  obtain ⟨i, _, rfl⟩ := ha
  obtain ⟨j, _, rfl⟩ := hb
  exact entryFor_inj_of_dt_eq p _ _ h

/-- The platform of any accumulated row is one of the listed platforms. -/
theorem rawSchedule_platform_mem (platforms : List String) (ppw : List (String × Int))
    (startDay : Int) : ∀ e ∈ rawSchedule platforms ppw startDay, e.platform ∈ platforms := by
  intro e he
  simp only [rawSchedule, List.mem_flatMap] at he
  obtain ⟨q, hq, he⟩ := he
  rw [platformEntries_platform q startDay _ e he]
  exact hq

/-- When a platform occurs exactly once in the list, restricting the
accumulated schedule to it yields exactly its built rows, in order. -/
theorem filter_rawSchedule (ppw : List (String × Int)) (startDay : Int) (p : String) :
    ∀ platforms : List String, platforms.count p = 1 →
      (rawSchedule platforms ppw startDay).filter (fun e => e.platform = p)
        = platformEntries p startDay (countFor ppw p).toNat := by
  intro platforms
  induction platforms with
  | nil => intro hcnt; simp at hcnt
  | cons q rest ih =>
    intro hcnt
    rw [show rawSchedule (q :: rest) ppw startDay
        = platformEntries q startDay (countFor ppw q).toNat ++ rawSchedule rest ppw startDay
      from List.flatMap_cons .., List.filter_append]
    by_cases hq : q = p
    · subst hq
      have hcnt0 : rest.count q = 0 := by
        simp [List.count_cons] at hcnt
        omega
      have hfilter1 : (platformEntries q startDay (countFor ppw q).toNat).filter
          (fun e => e.platform = q) = platformEntries q startDay (countFor ppw q).toNat :=
        List.filter_eq_self.mpr fun e he => by
          simp [platformEntries_platform q startDay _ e he]
      have hfilter2 : (rawSchedule rest ppw startDay).filter (fun e => e.platform = q) = [] :=
        List.filter_eq_nil_iff.mpr fun e he => by
          have hmem := rawSchedule_platform_mem rest ppw startDay e he
          simp only [decide_eq_true_eq]
          intro heq
          rw [heq] at hmem
          exact (List.count_eq_zero.mp hcnt0) hmem
      rw [hfilter1, hfilter2, List.append_nil]
    · have hcnt1 : rest.count p = 1 := by
        simpa [List.count_cons, hq] using hcnt
      have hfilter0 : (platformEntries q startDay (countFor ppw q).toNat).filter
          (fun e => e.platform = p) = [] :=
        List.filter_eq_nil_iff.mpr fun e he => by
          simp only [decide_eq_true_eq]
          rw [platformEntries_platform q startDay _ e he]
          exact hq
      rw [hfilter0, List.nil_append]
      exact ih hcnt1

/-- A permutation between two datetime-sorted row lists in which equal
datetimes only occur between identical rows is an equality. -/
theorem eq_of_perm_sorted_dt_inj :
    ∀ l₁ l₂ : List Entry, l₁.Perm l₂ → List.Sorted dtLe l₁ → List.Sorted dtLe l₂ →
      (∀ a ∈ l₁, ∀ b ∈ l₁, a.dt = b.dt → a = b) → l₁ = l₂ := by
  intro l₁
  induction l₁ with
  | nil =>
    intro l₂ hp _ _ _
    exact (List.Perm.eq_nil hp.symm).symm
  | cons a t₁ ih =>
    intro l₂ hp hs₁ hs₂ hinj
    cases l₂ with
    | nil => exact absurd hp.eq_nil (List.cons_ne_nil a t₁)
    | cons b t₂ =>
      have hab : a = b := by
        have hbmem : b ∈ a :: t₁ := hp.mem_iff.mpr (List.mem_cons_self b t₂)
        have hamem : a ∈ b :: t₂ := hp.mem_iff.mp (List.mem_cons_self a t₁)
        rcases List.mem_cons.mp hbmem with hba | hbt
        · exact hba.symm
        rcases List.mem_cons.mp hamem with hab | hat
        · exact hab
        · have h1 : dtLe a b := List.rel_of_sorted_cons hs₁ b hbt
          have h2 : dtLe b a := List.rel_of_sorted_cons hs₂ a hat
          exact hinj a (List.mem_cons_self a t₁) b hbmem (le_antisymm h1 h2)
      subst hab
      have hpt : t₁.Perm t₂ := hp.cons_inv
      rw [ih t₂ hpt hs₁.of_cons hs₂.of_cons fun x hx y hy hxy =>
        hinj x (List.mem_cons_of_mem a hx) y (List.mem_cons_of_mem a hy) hxy]

/-- The i-th built row of one platform. -/
theorem platformEntries_get (p : String) (s : Int) (c : Nat) (i : Nat)
    (h : i < (platformEntries p s c).length) :
    (platformEntries p s c).get ⟨i, h⟩ = entryFor p (s + (i * 7 / c : Nat)) := by
  simp [platformEntries]

/-- C6: a platform listed once whose configured count is positive gets
exactly that many rows; the i-th of them is dated startDay plus
floor(i * 7 / count) days with the time select_time returns for that
platform and date. -/
theorem weekly_distribution (platforms : List String) (ppw : List (String × Int))
    (startDay : Int) (p : String)
    (hcnt : platforms.count p = 1) (hpos : 0 < (countFor ppw p).toNat) :
    ∃ out, create_weekly_schedule platforms ppw startDay = Except.ok out
      ∧ (out.filter (fun e => e.platform = p)).length = (countFor ppw p).toNat
      ∧ ∀ i (h : i < (out.filter (fun e => e.platform = p)).length),
          ((out.filter (fun e => e.platform = p)).get ⟨i, h⟩).date
              = startDay + (i * 7 / (countFor ppw p).toNat : Nat)
            ∧ ((out.filter (fun e => e.platform = p)).get ⟨i, h⟩).time
              = selectTimeOfDay p (startDay + (i * 7 / (countFor ppw p).toNat : Nat)) none := by
  have hlenPE : (platformEntries p startDay (countFor ppw p).toNat).length
      = (countFor ppw p).toNat := by
    simp [platformEntries]
  have hraw := filter_rawSchedule ppw startDay p platforms hcnt
  have hraw_ne : rawSchedule platforms ppw startDay ≠ [] := by
    intro hem
    rw [hem] at hraw
    have hlen := congrArg List.length hraw
    rw [hlenPE] at hlen
    simp at hlen
    omega
  have hfeq : (sortByDt (rawSchedule platforms ppw startDay)).filter (fun e => e.platform = p)
      = platformEntries p startDay (countFor ppw p).toNat := by
    have hperm : (platformEntries p startDay (countFor ppw p).toNat).Perm
        ((sortByDt (rawSchedule platforms ppw startDay)).filter (fun e => e.platform = p)) := by
      rw [← hraw]
      exact ((List.perm_insertionSort dtLe (rawSchedule platforms ppw startDay)).symm.filter _)
    have hs₂ : List.Sorted dtLe
        ((sortByDt (rawSchedule platforms ppw startDay)).filter (fun e => e.platform = p)) :=
      (List.sorted_insertionSort dtLe (rawSchedule platforms ppw startDay)).sublist
        (List.filter_sublist _)
    exact (eq_of_perm_sorted_dt_inj _ _ hperm
      (platformEntries_sorted p startDay (countFor ppw p).toNat) hs₂
      (platformEntries_dt_inj p startDay (countFor ppw p).toNat)).symm
  refine ⟨sortByDt (rawSchedule platforms ppw startDay), ?_, ?_, ?_⟩
  · simp [create_weekly_schedule, List.isEmpty_iff, hraw_ne]
  · rw [hfeq, hlenPE]
  · intro i h
    have hget := List.get_of_eq hfeq ⟨i, h⟩
    rw [hget, platformEntries_get]
    exact ⟨rfl, rfl⟩

/-- Witness for weekly_distribution at a concrete input. -/
theorem weekly_distribution_witness :
    (["twitter"].count "twitter" = 1 ∧ 0 < (countFor [("twitter", 3)] "twitter").toNat)
    ∧ (∃ out, create_weekly_schedule ["twitter"] [("twitter", 3)] 0 = Except.ok out
      ∧ (out.filter (fun e => e.platform = "twitter")).length
          = (countFor [("twitter", 3)] "twitter").toNat
      ∧ ∀ i (h : i < (out.filter (fun e => e.platform = "twitter")).length),
          ((out.filter (fun e => e.platform = "twitter")).get ⟨i, h⟩).date
              = 0 + (i * 7 / (countFor [("twitter", 3)] "twitter").toNat : Nat)
            ∧ ((out.filter (fun e => e.platform = "twitter")).get ⟨i, h⟩).time
              = selectTimeOfDay "twitter"
                  (0 + (i * 7 / (countFor [("twitter", 3)] "twitter").toNat : Nat)) none) :=
  ⟨⟨by decide, by decide⟩,
    weekly_distribution ["twitter"] [("twitter", 3)] 0 "twitter" (by decide) (by decide)⟩
